import Mathlib

/-!
# Verification of the `data-backs` ingestion handler

Shallow embedding of `src/main.rs` (an axum HTTP handler that persists a
posted JSON payload to a timestamped file) together with proofs of the
behavioural claims made by the specification.

Conventions of the embedding:
* Rust `String`/`&str` values become Lean `String` (or `List Char` inside the
  JSON model, where character-by-character reasoning dominates).
* Machine integers become `Nat`/`Int` with explicit wrap-around (`% 2 ^ 64`)
  where the Rust code casts (`seconds as i64`).
* Fallible calls (every `.unwrap()` / `.expect(...)`) are modelled with
  `Option`: a `none` outcome corresponds to the request-handling task
  panicking, i.e. aborting without producing an HTTP response.
* The filesystem and clock are oracles passed in explicitly (`FsEnv`, the
  `nowSecs` argument); the handler's side effects are returned as a trace of
  `FsOp` values in program order.
-/

namespace DataBacks

/-! ## Name validation (`is_valid_name`, main.rs lines 52-54)

Rust: `name.chars().all(|c| c.is_alphanumeric() || c == '-' || c == '_')`.
Rust's `char::is_alphanumeric` is the Unicode `Alphabetic ∪ Number` predicate;
on the ASCII range — the range every claim exercises — it coincides with
`Char.isAlphanum`, which is how it is modelled here. -/

/-- Models Rust `char::is_alphanumeric` (restricted to the ASCII range, where
it agrees with the Unicode predicate the Rust standard library implements). -/
def charIsAlphanumeric (c : Char) : Bool :=
  c.isAlphanum

/-- `is_valid_name` from main.rs: every character is alphanumeric, `-` or `_`. -/
def is_valid_name (name : String) : Bool :=
  name.data.all (fun c => charIsAlphanumeric c || c == '-' || c == '_')

/-! ## Date arithmetic

`generate_filename` calls `chrono::DateTime::from_timestamp(seconds as i64, 0)`
and formats the result with `%Y-%m-%d`.  chrono is an external library; it is
modelled here by the standard proleptic-Gregorian civil-from-days conversion
(days are the floor of seconds by 86400), with `from_timestamp` returning
`none` outside chrono's representable range (years -262144 to 262143). -/

/-- Fuel-indexed helper for `natDigits` (structural recursion on the fuel so
that concrete values kernel-reduce). -/
def natDigitsAux : Nat → Nat → List Char
  | 0, _ => []
  | fuel + 1, n =>
      if n < 10 then [Char.ofNat (48 + n)]
      else natDigitsAux fuel (n / 10) ++ [Char.ofNat (48 + n % 10)]

/-- Decimal digits of `n`, most significant first (models integer formatting). -/
def natDigits (n : Nat) : List Char :=
  natDigitsAux (n + 1) n

/-- Zero-pad the decimal form of `n` on the left to at least `w` characters
(chrono `%Y` pads the year to 4, `%m`/`%d` pad to 2). -/
def padNat (w : Nat) (n : Nat) : List Char :=
  List.replicate (w - (natDigits n).length) '0' ++ natDigits n

/-- Civil (proleptic Gregorian) date of day number `z` (days since 1970-01-01,
negative allowed); returns `(year, month, day)`.  Standard algorithm. -/
def civilFromDays (z : Int) : Int × Nat × Nat :=
  let z' := z + 719468
  let era : Int := Int.fdiv z' 146097
  let doe : Nat := (z' - era * 146097).toNat
  let yoe : Nat := (doe - doe / 1460 + doe / 36524 - doe / 146096) / 365
  let y : Int := era * 400 + yoe
  let doy : Nat := doe - (365 * yoe + yoe / 4 - yoe / 100)
  let mp : Nat := (5 * doy + 2) / 153
  let d : Nat := doy - (153 * mp + 2) / 5 + 1
  let m : Nat := if mp < 10 then mp + 3 else mp - 9
  (if m ≤ 2 then y + 1 else y, m, d)

/-- Day number (days since 1970-01-01) of a civil date; inverse of
`civilFromDays`.  Used to state chrono's representable-range bounds. -/
def daysFromCivil (y : Int) (m : Nat) (d : Nat) : Int :=
  let y' : Int := if m ≤ 2 then y - 1 else y
  let era : Int := Int.fdiv y' 400
  let yoe : Nat := (y' - era * 400).toNat
  let mp : Nat := if m > 2 then m - 3 else m + 9
  let doy : Nat := (153 * mp + 2) / 5 + (d - 1)
  let doe : Nat := yoe * 365 + yoe / 4 - yoe / 100 + doy
  era * 146097 + (doe : Int) - 719468

/-- Largest epoch second chrono `DateTime::from_timestamp` accepts
(23:59:59 on 262143-12-31, chrono's `NaiveDate::MAX`). -/
def chronoMaxTs : Int := daysFromCivil 262143 12 31 * 86400 + 86399

/-- Smallest epoch second chrono `DateTime::from_timestamp` accepts
(00:00:00 on -262144-01-01, chrono's `NaiveDate::MIN`). -/
def chronoMinTs : Int := daysFromCivil (-262144) 1 1 * 86400

/-- Models `chrono::DateTime::from_timestamp(t, 0)` followed by extracting the
UTC civil date: `none` outside chrono's representable range. -/
def fromTimestamp (t : Int) : Option (Int × Nat × Nat) :=
  if t < chronoMinTs ∨ chronoMaxTs < t then none
  else some (civilFromDays (Int.fdiv t 86400))

/-- chrono's `%Y-%m-%d` formatting of a civil date: year zero-padded to 4
digits (sign in front when negative), month and day to 2. -/
def formatYmd : Int × Nat × Nat → List Char
  | (y, m, d) =>
    (if y < 0 then '-' :: padNat 4 (-y).toNat else padNat 4 y.toNat)
      ++ '-' :: padNat 2 m ++ '-' :: padNat 2 d

/-! ## Filename generation (`generate_filename`, main.rs lines 94-102) -/

/-- Rust `addr.replace(['.', ':'], "_")`: each `.` or `:` becomes `_`. -/
def sanitizeAddr (addr : String) : String :=
  ⟨addr.data.map (fun c => if c = '.' ∨ c = ':' then '_' else c)⟩

/-- The `seconds as i64` cast: `nowSecs` is the `u64` from
`duration.as_secs()`, reinterpreted in two's complement. -/
def tsOf (nowSecs : Nat) : Int :=
  if nowSecs % 2 ^ 64 < 2 ^ 63 then ((nowSecs % 2 ^ 64 : Nat) : Int)
  else ((nowSecs % 2 ^ 64 : Nat) : Int) - 2 ^ 64

/-- `generate_filename` from main.rs.  `none` models the
`.expect("Invalid timestamp")` panic. -/
def generate_filename (name : String) (addr : String) (nowSecs : Nat) : Option String :=
  match fromTimestamp (tsOf nowSecs) with
  | none => none
  | some date =>
      some (name ++ "-" ++ ⟨formatYmd date⟩ ++ "-" ++ sanitizeAddr addr ++ ".json")

/-! ## JSON values (`serde_json::Value`)

The handler delegates serialization to `serde_json`; the library is modelled
here.  Numbers are restricted to integers (the `i64`/`u64` arms of
`serde_json::Number`; the floating-point arm is outside the scope of the
embedding) and objects are association lists in serialization order. -/

inductive Json where
  | null
  | bool (b : Bool)
  | num (n : Int)
  | str (s : List Char)
  | arr (xs : List Json)
  | obj (xs : List (List Char × Json))

mutual
/-- Size measure for `Json` (used as parser fuel bounds). -/
def jsize : Json → Nat
  | .null => 1
  | .bool _ => 1
  | .num _ => 1
  | .str _ => 1
  | .arr xs => 1 + jsizeList xs
  | .obj xs => 1 + jsizeObj xs

/-- Size measure for a list of `Json` values. -/
def jsizeList : List Json → Nat
  | [] => 1
  | x :: xs => 1 + jsize x + jsizeList xs

/-- Size measure for the entry list of a JSON object. -/
def jsizeObj : List (List Char × Json) → Nat
  | [] => 1
  | (_, v) :: xs => 1 + jsize v + jsizeObj xs
end

/-- Lowercase hexadecimal digit (serde_json's `\u00XX` escapes). -/
def hexDigitChar (n : Nat) : Char :=
  if n < 10 then Char.ofNat (48 + n) else Char.ofNat (87 + n)

/-- serde_json's string escaping for one character: `"`, `\`, the short
control escapes, `\u00XX` for the remaining control characters, everything
else verbatim. -/
def escapeChar (c : Char) : List Char :=
  if c = '"' then ['\\', '"']
  else if c = '\\' then ['\\', '\\']
  else if c = Char.ofNat 8 then ['\\', 'b']
  else if c = Char.ofNat 9 then ['\\', 't']
  else if c = Char.ofNat 10 then ['\\', 'n']
  else if c = Char.ofNat 12 then ['\\', 'f']
  else if c = Char.ofNat 13 then ['\\', 'r']
  else if c.toNat < 32 then
    ['\\', 'u', '0', '0', hexDigitChar (c.toNat / 16), hexDigitChar (c.toNat % 16)]
  else [c]

/-- serde_json's escaping of a whole string (without the enclosing quotes). -/
def escapeString (s : List Char) : List Char :=
  (s.map escapeChar).flatten

/-- Decimal form of an integer (serde_json's number serialization,
integer arms). -/
def intChars (n : Int) : List Char :=
  if n < 0 then '-' :: natDigits (-n).toNat else natDigits n.toNat

/-- Indentation emitted by `serde_json::to_string_pretty` at nesting
level `lvl`: two spaces per level. -/
def indent (lvl : Nat) : List Char :=
  List.replicate (2 * lvl) ' '

mutual
/-- `serde_json::to_string_pretty` (as a `List Char`), at nesting level
`lvl`: atoms inline; non-empty arrays and objects put every element on its
own line, indented two spaces per level. -/
def prettyVal : Json → Nat → List Char
  | .null, _ => ['n', 'u', 'l', 'l']
  | .bool true, _ => ['t', 'r', 'u', 'e']
  | .bool false, _ => ['f', 'a', 'l', 's', 'e']
  | .num n, _ => intChars n
  | .str s, _ => '"' :: escapeString s ++ ['"']
  | .arr [], _ => ['[', ']']
  | .arr (x :: xs), lvl =>
      '[' :: '\n' :: indent (lvl + 1) ++ prettyVal x (lvl + 1)
        ++ prettyArrTail xs (lvl + 1) ++ '\n' :: indent lvl ++ [']']
  | .obj [], _ => ['{', '}']
  | .obj (kv :: xs), lvl =>
      '{' :: '\n' :: indent (lvl + 1) ++ prettyEntry kv (lvl + 1)
        ++ prettyObjTail xs (lvl + 1) ++ '\n' :: indent lvl ++ ['}']

/-- One `"key": value` line of a pretty-printed object. -/
def prettyEntry : List Char × Json → Nat → List Char
  | (k, v), lvl => '"' :: escapeString k ++ '"' :: ':' :: ' ' :: prettyVal v lvl

/-- The remaining elements of a pretty-printed non-empty array: each is
preceded by `",\n"` and the level's indentation. -/
def prettyArrTail : List Json → Nat → List Char
  | [], _ => []
  | x :: xs, lvl => ',' :: '\n' :: indent lvl ++ prettyVal x lvl ++ prettyArrTail xs lvl

/-- The remaining entries of a pretty-printed non-empty object. -/
def prettyObjTail : List (List Char × Json) → Nat → List Char
  | [], _ => []
  | kv :: xs, lvl => ',' :: '\n' :: indent lvl ++ prettyEntry kv lvl ++ prettyObjTail xs lvl
end

/-! ## JSON parsing (`serde_json::from_slice` / the `Json` extractor)

A recursive-descent parser over `List Char`, with a fuel argument to make the
recursion structural.  It covers the grammar fragment the pretty printer
emits (integers, all string escapes, nested arrays/objects, the four
whitespace characters serde skips); `\uXXXX` escapes decode to the scalar
value without surrogate pairing, and number fractions/exponents are outside
the integer-number model. -/

/-- The whitespace characters a JSON parser skips. -/
def isWsChar (c : Char) : Bool :=
  c = ' ' || c = '\n' || c = '\t' || c = Char.ofNat 13

/-- Drop leading JSON whitespace. -/
def skipWs : List Char → List Char
  | [] => []
  | c :: cs => if isWsChar c then skipWs cs else c :: cs

/-- ASCII decimal digit test. -/
def isDigitChar (c : Char) : Bool :=
  48 ≤ c.toNat && c.toNat ≤ 57

/-- Numeric value of an ASCII digit. -/
def digitVal (c : Char) : Nat :=
  c.toNat - 48

/-- Consume a maximal run of digits, folding them onto `acc`. -/
def parseDigitsGo (acc : Nat) : List Char → Nat × List Char
  | [] => (acc, [])
  | c :: cs =>
      if isDigitChar c then parseDigitsGo (acc * 10 + digitVal c) cs else (acc, c :: cs)

/-- Value of a hexadecimal digit, either case. -/
def hexVal (c : Char) : Option Nat :=
  if 48 ≤ c.toNat ∧ c.toNat ≤ 57 then some (c.toNat - 48)
  else if 97 ≤ c.toNat ∧ c.toNat ≤ 102 then some (c.toNat - 87)
  else if 65 ≤ c.toNat ∧ c.toNat ≤ 70 then some (c.toNat - 55)
  else none

/-- Decoding of a single-character escape (the character after `\`). -/
def unescape (e : Char) : Option Char :=
  if e = '"' then some '"'
  else if e = '\\' then some '\\'
  else if e = '/' then some '/'
  else if e = 'b' then some (Char.ofNat 8)
  else if e = 'f' then some (Char.ofNat 12)
  else if e = 'n' then some '\n'
  else if e = 'r' then some (Char.ofNat 13)
  else if e = 't' then some '\t'
  else none

/-- Parse the body of a JSON string, the opening quote already consumed;
returns the decoded characters and the input after the closing quote. -/
def parseStringBody : List Char → Option (List Char × List Char)
  | [] => none
  | c :: cs =>
      if c = '"' then some ([], cs)
      else if c = '\\' then
        match cs with
        | [] => none
        | e :: cs2 =>
            if e = 'u' then
              match cs2 with
              | a :: b :: c3 :: d :: cs3 =>
                  match hexVal a, hexVal b, hexVal c3, hexVal d with
                  | some ha, some hb, some hc, some hd =>
                      (fun r => (Char.ofNat (((ha * 16 + hb) * 16 + hc) * 16 + hd) :: r.1, r.2))
                        <$> parseStringBody cs3
                  | _, _, _, _ => none
              | _ => none
            else
              match unescape e with
              | some u => (fun r => (u :: r.1, r.2)) <$> parseStringBody cs2
              | none => none
      else (fun r => (c :: r.1, r.2)) <$> parseStringBody cs

/-- Expect the literal characters `lit` as a prefix of the input; return the
remainder. -/
def expectChars : List Char → List Char → Option (List Char)
  | [], s => some s
  | _ :: _, [] => none
  | e :: lit, x :: s => if x = e then expectChars lit s else none

mutual
/-- Parse one JSON value (leading whitespace allowed); returns the value and
the unconsumed remainder.  `none` models a parse failure (or fuel
exhaustion, which on well-formed input never occurs once the fuel exceeds
the value's `jsize`). -/
def parseVal : Nat → List Char → Option (Json × List Char)
  | 0, _ => none
  | fuel + 1, s =>
      match skipWs s with
      | [] => none
      | c :: r =>
          if c = 'n' then (expectChars ['u', 'l', 'l'] r).map (fun r' => (.null, r'))
          else if c = 't' then (expectChars ['r', 'u', 'e'] r).map (fun r' => (.bool true, r'))
          else if c = 'f' then (expectChars ['a', 'l', 's', 'e'] r).map (fun r' => (.bool false, r'))
          else if c = '"' then (parseStringBody r).map (fun p => (Json.str p.1, p.2))
          else if c = '[' then
            match skipWs r with
            | [] => none
            | c2 :: r2 =>
                if c2 = ']' then some (.arr [], r2)
                else
                  match parseVal fuel (c2 :: r2) with
                  | none => none
                  | some (x, r3) =>
                      match parseArrTail fuel r3 with
                      | none => none
                      | some (xs, r4) => some (.arr (x :: xs), r4)
          else if c = '{' then
            match skipWs r with
            | [] => none
            | c2 :: r2 =>
                if c2 = '}' then some (.obj [], r2)
                else
                  match parseEntry fuel (c2 :: r2) with
                  | none => none
                  | some (kv, r3) =>
                      match parseObjTail fuel r3 with
                      | none => none
                      | some (xs, r4) => some (.obj (kv :: xs), r4)
          else if c = '-' then
            match r with
            | [] => none
            | c2 :: r2 =>
                if isDigitChar c2 then
                  some (.num (-((parseDigitsGo (digitVal c2) r2).1 : Int)),
                    (parseDigitsGo (digitVal c2) r2).2)
                else none
          else if isDigitChar c then
            some (.num ((parseDigitsGo (digitVal c) r).1 : Int),
              (parseDigitsGo (digitVal c) r).2)
          else none

/-- After the first element of a non-empty array: a `,`-separated sequence of
values terminated by `]`. -/
def parseArrTail : Nat → List Char → Option (List Json × List Char)
  | 0, _ => none
  | fuel + 1, s =>
      match skipWs s with
      | [] => none
      | c :: r =>
          if c = ',' then
            match parseVal fuel r with
            | none => none
            | some (x, r2) =>
                match parseArrTail fuel r2 with
                | none => none
                | some (xs, r3) => some (x :: xs, r3)
          else if c = ']' then some ([], r)
          else none

/-- One `"key": value` entry of an object. -/
def parseEntry : Nat → List Char → Option ((List Char × Json) × List Char)
  | 0, _ => none
  | fuel + 1, s =>
      match skipWs s with
      | [] => none
      | c :: r =>
          if c = '"' then
            match parseStringBody r with
            | none => none
            | some (k, r2) =>
                match skipWs r2 with
                | [] => none
                | c2 :: r3 =>
                    if c2 = ':' then
                      match parseVal fuel r3 with
                      | none => none
                      | some (v, r4) => some ((k, v), r4)
                    else none
          else none

/-- After the first entry of a non-empty object: a `,`-separated sequence of
entries terminated by `}`. -/
def parseObjTail : Nat → List Char → Option (List (List Char × Json) × List Char)
  | 0, _ => none
  | fuel + 1, s =>
      match skipWs s with
      | [] => none
      | c :: r =>
          if c = ',' then
            match parseEntry fuel r with
            | none => none
            | some (kv, r2) =>
                match parseObjTail fuel r2 with
                | none => none
                | some (xs, r3) => some (kv :: xs, r3)
          else if c = '}' then some ([], r)
          else none
end

/-- `s` parses (in full) to the JSON value `v`: some fuel suffices. -/
def ParsesTo (s : List Char) (v : Json) : Prop :=
  ∃ fuel, parseVal fuel s = some (v, [])

/-- The input does not begin with an ASCII digit (so a maximal-munch number
parse stops exactly at its boundary). -/
def noDigitHead : List Char → Bool
  | [] => true
  | c :: _ => !isDigitChar c

/-! ## The request handler (`save_data`, main.rs lines 56-92)

The handler's effects on the outside world are explicit: the clock is the
`nowSecs` argument (the `u64` from `SystemTime::now()`), the filesystem and
process environment are the `FsEnv` oracle, and the filesystem calls the
handler attempts are returned in program order as a trace.  A `none`
response models an `.unwrap()`/`.expect()` panic: the request-handling task
aborts and no HTTP response is produced. -/

/-- A filesystem call made by the handler. -/
inductive FsOp where
  | createDirAll (path : String)
  | createFile (path : String)
  | writeAll (path : String) (contents : List Char)
deriving DecidableEq

/-- Outcomes of the environment- and filesystem interactions `save_data`
performs, fixed before the request is handled. -/
structure FsEnv where
  /-- `env::current_dir()`: `none` models `Err`. -/
  currentDir : Option String
  /-- `path.parent().unwrap().exists()`. -/
  parentExists : Bool
  /-- whether `std::fs::create_dir_all` would succeed. -/
  createDirOk : Bool
  /-- whether `File::create` would succeed. -/
  createFileOk : Bool
  /-- whether `file.write_all` would succeed. -/
  writeOk : Bool
deriving DecidableEq

/-- Result of one `save_data` invocation: the HTTP response (`none` = the
task panicked and no response was sent), the filesystem calls attempted in
order, and the `println!` log lines. -/
structure SaveResult where
  response : Option (Nat × String)
  ops : List FsOp
  logs : List String
deriving DecidableEq

/-- `PathBuf::parent` on the paths this program builds: the path with its
final `/`-separated component (and the separator) removed. -/
def parentOf (path : String) : String :=
  ⟨((path.data.reverse.dropWhile (fun c => c ≠ '/')).drop 1).reverse⟩

/-- UTF-8 byte length of a character list (Rust `str::len`). -/
def utf8Len (s : List Char) : Nat :=
  (s.map Char.utf8Size).sum

/-- `json!({ "filename": filename }).to_string()`: the compact serialization
of the one-field success object. -/
def successBody (filename : String) : String :=
  ⟨'{' :: '"' :: "filename".data ++ '"' :: ':' :: '"' :: escapeString filename.data
    ++ '"' :: ['}']⟩

/-- The `remote_addr` binding of `save_data` (main.rs lines 65-68): the
`X-Forwarded-For` header value when present and valid UTF-8, else the
literal `"none"`.  The outer `Option` is header presence; the inner one is
`HeaderValue::to_str` (`none` = not valid UTF-8/visible ASCII). -/
def remoteAddrOf (xff : Option (Option String)) : String :=
  match xff with
  | none => "none"
  | some v => v.getD "none"

/-- `save_data` from main.rs.  Arguments mirror the axum extractors: `name`
is the `/data/:name` path segment, `xff` the `X-Forwarded-For` header,
`peer` the `ConnectInfo<SocketAddr>` transport peer address (shown with its
`Debug` form, which for `SocketAddr` equals its display form), `payload`
the already-decoded JSON body. -/
def save_data (env : FsEnv) (nowSecs : Nat) (name : String)
    (xff : Option (Option String)) (peer : String) (payload : Json) : SaveResult :=
  let data := prettyVal payload 0
  let remote_addr := remoteAddrOf xff
  let log1 := "Data received for " ++ peer ++ " " ++ name ++ ": " ++ toString (utf8Len data)
  if ¬ is_valid_name name then
    { response := some (400, "Invalid name"), ops := [], logs := [log1] }
  else
    match generate_filename name remote_addr nowSecs with
    | none => { response := none, ops := [], logs := [log1] }
    | some filename =>
        match env.currentDir with
        | none => { response := none, ops := [], logs := [log1] }
        | some cwd =>
            let path := cwd ++ "/data/" ++ filename
            let dirOps := if env.parentExists then [] else [FsOp.createDirAll (parentOf path)]
            if ¬ env.parentExists ∧ ¬ env.createDirOk then
              { response := none, ops := dirOps, logs := [log1] }
            else if ¬ env.createFileOk then
              { response := none, ops := dirOps ++ [FsOp.createFile path], logs := [log1] }
            else if ¬ env.writeOk then
              { response := none,
                ops := dirOps ++ [FsOp.createFile path, FsOp.writeAll path data],
                logs := [log1] }
            else
              { response := some (200, successBody filename),
                ops := dirOps ++ [FsOp.createFile path, FsOp.writeAll path data],
                logs := [log1, "Data saved to " ++ filename] }

/-! ## Filesystem semantics for the emitted trace

Used to state the overwrite claim: a filesystem is a partial map from paths
to file contents; `File::create` truncates (content becomes empty),
`write_all` directly after it sets the content.  `create_dir_all` does not
touch file contents. -/

/-- Effect of one filesystem call on the path-to-contents map. -/
def applyOp (fs : String → Option (List Char)) : FsOp → (String → Option (List Char))
  | .createDirAll _ => fs
  | .createFile p => fun q => if q = p then some [] else fs q
  | .writeAll p c => fun q => if q = p then some c else fs q

/-- Effect of a trace of filesystem calls, in order. -/
def applyOps (ops : List FsOp) (fs : String → Option (List Char)) :
    String → Option (List Char) :=
  ops.foldl applyOp fs

/-- A fully healthy environment (every filesystem call succeeds), with the
given working directory and parent-directory state. -/
def okEnv (cwd : String) (parentExists : Bool) : FsEnv :=
  { currentDir := some cwd, parentExists := parentExists,
    createDirOk := true, createFileOk := true, writeOk := true }

/-! ## Spec-side definitions

Written from the specification's words, independently of the code, for the
refinement claims. -/

/-- The spec's name policy: every character is alphanumeric, `-`, or `_`. -/
def SpecValidName (name : String) : Prop :=
  ∀ c ∈ name.data, charIsAlphanumeric c = true ∨ c = '-' ∨ c = '_'

/-- The spec's address sanitization: every `.` and every `:` character is
replaced by `_`. -/
def specSanitize (addr : String) : String :=
  ⟨addr.data.map (fun c => if c = '.' then '_' else if c = ':' then '_' else c)⟩

/-- The spec's `currentDate`: the seconds-resolution epoch timestamp
truncated to a date (whole days since 1970-01-01) formatted `YYYY-MM-DD`. -/
def specCurrentDate (nowSecs : Nat) : String :=
  ⟨formatYmd (civilFromDays (nowSecs / 86400))⟩

end DataBacks

namespace DataBacks

/-! ## Claim theorems -/

/-- C2: `is_valid_name name` is true if and only if every character of
`name` is alphanumeric, `-`, or `_` — hence true for names made only of
letters, digits, `-`, `_`, and false as soon as any other character (space,
`/`, `.`, …) occurs. -/
theorem is_valid_name_iff_spec (name : String) :
    is_valid_name name = true ↔ SpecValidName name := by
  simp only [is_valid_name, SpecValidName, List.all_eq_true, charIsAlphanumeric,
    Bool.or_eq_true, beq_iff_eq, or_assoc]

/-- C3: a request whose name fails the character policy gets HTTP 400 with
body `"Invalid name"` and causes no filesystem operation at all. -/
theorem invalid_name_rejected (env : FsEnv) (nowSecs : Nat) (name : String)
    (xff : Option (Option String)) (peer : String) (payload : Json)
    (h : is_valid_name name = false) :
    (save_data env nowSecs name xff peer payload).response = some (400, "Invalid name")
      ∧ (save_data env nowSecs name xff peer payload).ops = [] := by
  simp [save_data, h]

/-- Witness for C3 at the concrete request of spec scenario C. -/
theorem invalid_name_rejected_witness :
    is_valid_name "bad name!" = false
      ∧ (save_data (okEnv "/app" true) 0 "bad name!" none "1.2.3.4:80" .null).response
          = some (400, "Invalid name")
      ∧ (save_data (okEnv "/app" true) 0 "bad name!" none "1.2.3.4:80" .null).ops = [] :=
  ⟨by decide,
   (invalid_name_rejected (okEnv "/app" true) 0 "bad name!" none "1.2.3.4:80" .null
     (by decide)).1,
   (invalid_name_rejected (okEnv "/app" true) 0 "bad name!" none "1.2.3.4:80" .null
     (by decide)).2⟩

/-- C8: when the `X-Forwarded-For` header is absent (`xff = none`) or its
value is not valid UTF-8 (`xff = some none`), the handler's address string is
the literal `"none"`, and the whole request behaves exactly as with no
header. -/
theorem forwarded_header_defaults_none (env : FsEnv) (nowSecs : Nat) (name : String)
    (xff : Option (Option String)) (peer : String) (payload : Json)
    (h : xff = none ∨ xff = some none) :
    remoteAddrOf xff = "none"
      ∧ save_data env nowSecs name xff peer payload
          = save_data env nowSecs name none peer payload := by
  rcases h with rfl | rfl <;> exact ⟨rfl, rfl⟩

/-- Witness for C8 with a present but non-UTF8 header value. -/
theorem forwarded_header_defaults_none_witness :
    ((some (some "none") : Option (Option String)) = none ∨ (some none : Option (Option String)) = some none)
      ∧ remoteAddrOf (some none) = "none" :=
  ⟨Or.inr rfl,
   (forwarded_header_defaults_none (okEnv "/" true) 0 "n" (some none) "p" .null
     (Or.inr rfl)).1⟩

/-- The shape of every successfully generated filename: name, date, and
sanitized address joined by `-`, with extension `.json`. -/
theorem generate_filename_eq (name addr : String) (nowSecs : Nat) (f : String)
    (h : generate_filename name addr nowSecs = some f) :
    ∃ date, fromTimestamp (tsOf nowSecs) = some date
      ∧ f = name ++ "-" ++ ⟨formatYmd date⟩ ++ "-" ++ sanitizeAddr addr ++ ".json" := by
  unfold generate_filename at h
  cases hts : fromTimestamp (tsOf nowSecs) with
  | none => rw [hts] at h; cases h
  | some date => rw [hts] at h; exact ⟨date, rfl, (Option.some_inj.mp h).symm⟩

/-- C10: the empty name passes validation (the character condition is
vacuously true), and a filename generated from the empty name starts with
`-`. -/
theorem empty_name_accepted :
    is_valid_name "" = true
      ∧ ∀ (addr : String) (nowSecs : Nat) (f : String),
          generate_filename "" addr nowSecs = some f → f.data.head? = some '-' := by
  refine ⟨by decide, ?_⟩
  intro addr nowSecs f h
  obtain ⟨date, -, rfl⟩ := generate_filename_eq "" addr nowSecs f h
  simp [String.data_append]

/-- Witness for C10 at a concrete address and timestamp. -/
theorem empty_name_accepted_witness :
    is_valid_name "" = true
      ∧ generate_filename "" "a" 0 = some "-1970-01-01-a.json"
      ∧ ("-1970-01-01-a.json" : String).data.head? = some '-' :=
  ⟨empty_name_accepted.1, by decide, empty_name_accepted.2 "a" 0 _ (by decide)⟩

/-- On the success path (valid name, representable timestamp, healthy
filesystem) the handler's trace is: optionally create the data directory,
then create and write the one output file; the response is 200 with the
filename in a JSON body. -/
theorem save_data_success_shape (env : FsEnv) (nowSecs : Nat) (name : String)
    (xff : Option (Option String)) (peer : String) (payload : Json) (cwd f : String)
    (hcd : env.currentDir = some cwd)
    (hname : is_valid_name name = true)
    (hgen : generate_filename name (remoteAddrOf xff) nowSecs = some f)
    (hdir : env.parentExists = true ∨ env.createDirOk = true)
    (hcf : env.createFileOk = true) (hw : env.writeOk = true) :
    (save_data env nowSecs name xff peer payload).ops
        = (if env.parentExists then []
           else [FsOp.createDirAll (parentOf (cwd ++ "/data/" ++ f))])
          ++ [FsOp.createFile (cwd ++ "/data/" ++ f),
              FsOp.writeAll (cwd ++ "/data/" ++ f) (prettyVal payload 0)]
      ∧ (save_data env nowSecs name xff peer payload).response
          = some (200, successBody f) := by
  rcases hdir with hpe | hcdo
  · simp [save_data, hname, hgen, hcd, hpe, hcf, hw]
  · cases hpe2 : env.parentExists <;>
      simp [save_data, hname, hgen, hcd, hpe2, hcdo, hcf, hw]

/-- C1 is false on the code: with the X-Forwarded-For header present, the
filename folded into the filesystem path is derived from the header value
(`9.9.9.9` → `9_9_9_9`), not from the transport peer address
(`1.2.3.4:5555`, whose sanitization `1_2_3_4_5555` appears nowhere); with
the header absent the same request instead uses `none` in the filename. -/
theorem filename_ignores_peer_counterexample :
    (save_data (okEnv "/app" true) 0 "n" (some (some "9.9.9.9")) "1.2.3.4:5555" .null).ops
        = [FsOp.createFile "/app/data/n-1970-01-01-9_9_9_9.json",
           FsOp.writeAll "/app/data/n-1970-01-01-9_9_9_9.json" ['n', 'u', 'l', 'l']]
      ∧ (save_data (okEnv "/app" true) 0 "n" none "1.2.3.4:5555" .null).ops
        = [FsOp.createFile "/app/data/n-1970-01-01-none.json",
           FsOp.writeAll "/app/data/n-1970-01-01-none.json" ['n', 'u', 'l', 'l']]
      ∧ sanitizeAddr "1.2.3.4:5555" = "1_2_3_4_5555"
      ∧ ("n-1970-01-01-9_9_9_9.json" : String) ≠ "n-1970-01-01-1_2_3_4_5555.json" := by
  refine ⟨?_, ?_, by decide, by decide⟩ <;> decide

/-- C1 (amended): the client-address component of the derived filename comes
from the X-Forwarded-For value (via `remoteAddrOf`); the transport peer
address influences neither the filesystem operations nor the HTTP response
(it is only displayed in the log line). -/
theorem filename_address_from_forwarded_header (env : FsEnv) (nowSecs : Nat)
    (name : String) (xff : Option (Option String)) (peer peer' : String)
    (payload : Json) (cwd f : String)
    (hcd : env.currentDir = some cwd)
    (hname : is_valid_name name = true)
    (hgen : generate_filename name (remoteAddrOf xff) nowSecs = some f)
    (hdir : env.parentExists = true ∨ env.createDirOk = true)
    (hcf : env.createFileOk = true) (hw : env.writeOk = true) :
    (save_data env nowSecs name xff peer payload).ops
        = (save_data env nowSecs name xff peer' payload).ops
      ∧ (save_data env nowSecs name xff peer payload).response
          = (save_data env nowSecs name xff peer' payload).response
      ∧ FsOp.writeAll (cwd ++ "/data/" ++ f) (prettyVal payload 0)
          ∈ (save_data env nowSecs name xff peer payload).ops := by
  obtain ⟨ho, hr⟩ := save_data_success_shape env nowSecs name xff peer payload cwd f
    hcd hname hgen hdir hcf hw
  obtain ⟨ho', hr'⟩ := save_data_success_shape env nowSecs name xff peer' payload cwd f
    hcd hname hgen hdir hcf hw
  refine ⟨ho.trans ho'.symm, hr.trans hr'.symm, ?_⟩
  rw [ho]
  simp

/-- Witness for C1's amended theorem at a concrete request. -/
theorem filename_address_from_forwarded_header_witness :
    is_valid_name "n" = true
      ∧ generate_filename "n" (remoteAddrOf (some (some "9.9.9.9"))) 0
          = some "n-1970-01-01-9_9_9_9.json"
      ∧ FsOp.writeAll "/app/data/n-1970-01-01-9_9_9_9.json" ['n', 'u', 'l', 'l']
          ∈ (save_data (okEnv "/app" true) 0 "n" (some (some "9.9.9.9"))
              "1.2.3.4:5555" .null).ops :=
  ⟨by decide, by decide,
   (filename_address_from_forwarded_header (okEnv "/app" true) 0 "n"
      (some (some "9.9.9.9")) "1.2.3.4:5555" "5.6.7.8:9" .null "/app"
      "n-1970-01-01-9_9_9_9.json" rfl (by decide) (by decide)
      (Or.inl rfl) rfl rfl).2.2⟩

/-- C7: once the name is valid, any failing step — timestamp conversion,
working-directory lookup, directory creation (when the directory is
missing), file creation, or write — leaves the request without an HTTP
response: the handling task aborts. -/
theorem fs_failure_aborts (env : FsEnv) (nowSecs : Nat) (name : String)
    (xff : Option (Option String)) (peer : String) (payload : Json)
    (hname : is_valid_name name = true)
    (hfail : generate_filename name (remoteAddrOf xff) nowSecs = none
      ∨ env.currentDir = none
      ∨ (env.parentExists = false ∧ env.createDirOk = false)
      ∨ env.createFileOk = false
      ∨ env.writeOk = false) :
    (save_data env nowSecs name xff peer payload).response = none := by
  rcases env with ⟨cd, pe, cdo, cfo, wo⟩
  cases hgg : generate_filename name (remoteAddrOf xff) nowSecs <;>
    cases cd <;> cases pe <;> cases cdo <;> cases cfo <;> cases wo <;>
    simp_all [save_data]

/-- Every character produced by `natDigitsAux` is an ASCII digit. -/
theorem mem_natDigitsAux {c : Char} :
    ∀ {fuel n : Nat}, c ∈ natDigitsAux fuel n → ∃ k, k ≤ 9 ∧ c = Char.ofNat (48 + k) := by
  intro fuel
  induction fuel with
  | zero => intro n h; simp [natDigitsAux] at h
  | succ f ih =>
      intro n h
      unfold natDigitsAux at h
      by_cases hn : n < 10
      · rw [if_pos hn] at h
        simp at h
        exact ⟨n, by omega, h⟩
      · rw [if_neg hn] at h
        rcases List.mem_append.mp h with h | h
        · exact ih h
        · simp at h
          exact ⟨n % 10, by omega, h⟩

/-- Every character of the decimal form of `n` is an ASCII digit. -/
theorem mem_natDigits {c : Char} {n : Nat} (h : c ∈ natDigits n) :
    ∃ k, k ≤ 9 ∧ c = Char.ofNat (48 + k) :=
  mem_natDigitsAux h

/-- The decimal form of a number is never empty. -/
theorem natDigits_ne_nil (n : Nat) : natDigits n ≠ [] := by
  unfold natDigits natDigitsAux
  by_cases hn : n < 10 <;> simp [hn]

/-- Facts about an ASCII digit character, bundled for reuse: it is a digit,
not whitespace, distinct from every delimiter the parser and the filename
analysis care about, and its numeric value is its index. -/
theorem digitChar_facts (k : Nat) (hk : k ≤ 9) :
    isDigitChar (Char.ofNat (48 + k)) = true
      ∧ isWsChar (Char.ofNat (48 + k)) = false
      ∧ Char.ofNat (48 + k) ≠ '.'
      ∧ Char.ofNat (48 + k) ≠ '/'
      ∧ Char.ofNat (48 + k) ≠ ']'
      ∧ Char.ofNat (48 + k) ≠ '}'
      ∧ Char.ofNat (48 + k) ≠ ','
      ∧ Char.ofNat (48 + k) ≠ 'n'
      ∧ Char.ofNat (48 + k) ≠ 't'
      ∧ Char.ofNat (48 + k) ≠ 'f'
      ∧ Char.ofNat (48 + k) ≠ '"'
      ∧ Char.ofNat (48 + k) ≠ '['
      ∧ Char.ofNat (48 + k) ≠ '{'
      ∧ Char.ofNat (48 + k) ≠ '-'
      ∧ digitVal (Char.ofNat (48 + k)) = k := by
  interval_cases k <;> exact (by decide)

/-- Every character of a zero-padded number is an ASCII digit. -/
theorem mem_padNat {c : Char} {w n : Nat} (h : c ∈ padNat w n) :
    ∃ k, k ≤ 9 ∧ c = Char.ofNat (48 + k) := by
  unfold padNat at h
  rcases List.mem_append.mp h with h | h
  · exact ⟨0, by omega, (List.eq_of_mem_replicate h)⟩
  · exact mem_natDigits h

/-- Every character of a formatted date is a digit or `-`. -/
theorem mem_formatYmd {c : Char} {d : Int × Nat × Nat} (h : c ∈ formatYmd d) :
    c = '-' ∨ ∃ k, k ≤ 9 ∧ c = Char.ofNat (48 + k) := by
  obtain ⟨y, m, dd⟩ := d
  simp only [formatYmd] at h
  by_cases hy : y < 0
  all_goals
    simp only [hy, if_true, if_false, List.mem_append, List.mem_cons,
      List.cons_append, List.append_assoc, List.mem_replicate, padNat] at h
  all_goals
    repeat' first
      | exact Or.inl h
      | exact Or.inl h.2
      | exact Or.inr (mem_natDigits h)
      | exact Or.inr ⟨0, by omega, h.2⟩
      | (rcases h with h | h)

/-- A valid name contains no `.` character. -/
theorem valid_name_no_dot {name : String} (h : is_valid_name name = true) :
    '.' ∉ name.data := by
  intro hmem
  have := List.all_eq_true.mp h '.' hmem
  simp [charIsAlphanumeric] at this

/-- Sanitized addresses contain no `.` character. -/
theorem sanitize_no_dot (addr : String) : '.' ∉ (sanitizeAddr addr).data := by
  intro hmem
  unfold sanitizeAddr at hmem
  obtain ⟨x, -, hx⟩ := List.mem_map.mp hmem
  by_cases h : x = '.' ∨ x = ':'
  · rw [if_pos h] at hx; cases hx
  · rw [if_neg h] at hx
    exact h (Or.inl hx)

/-- Sanitization preserves `/`. -/
theorem slash_mem_sanitize {addr : String} (h : '/' ∈ addr.data) :
    '/' ∈ (sanitizeAddr addr).data := by
  unfold sanitizeAddr
  refine List.mem_map.mpr ⟨'/', h, ?_⟩
  decide

/-- A formatted date contains no `.` character. -/
theorem formatYmd_no_dot (d : Int × Nat × Nat) : '.' ∉ formatYmd d := by
  intro hmem
  rcases mem_formatYmd hmem with h | ⟨k, hk, h⟩
  · cases h
  · exact (digitChar_facts k hk).2.2.1 h.symm

/-- C9's final consequence is false on the code: at the canonical
path-traversal header value `../../secret`, the generated filename does keep
the `/` separators, but every `.` has been replaced by `_`, so the filename
contains no `..` component and exactly one `.` (the extension's), and the
resolved path stays inside the data directory. -/
theorem sanitize_traversal_counterexample :
    generate_filename "a" "../../secret" 0 = some "a-1970-01-01-__/__/secret.json"
      ∧ '/' ∈ ("a-1970-01-01-__/__/secret.json" : String).data
      ∧ ("a-1970-01-01-__/__/secret.json" : String).data.count '.' = 1
      ∧ ¬ ['.', '.'] <:+: ("a-1970-01-01-__/__/secret.json" : String).data := by
  refine ⟨by decide, by decide, by decide, ?_⟩
  intro h
  have := h.count_le '.'
  simp at this

/-- C9 (amended): sanitization replaces only `.` and `:`, so a `/` in the
header value survives into the generated filename and the output path lands
in a subdirectory of the data directory; but because every `.` is replaced,
the filename contains exactly one `.` (in `.json`) and never a `..`
component, so the resolved path cannot climb out of the data directory. -/
theorem sanitized_filename_slash_no_dotdot (name addr : String) (nowSecs : Nat)
    (f : String)
    (hname : is_valid_name name = true)
    (hgen : generate_filename name addr nowSecs = some f) :
    ('/' ∈ addr.data → '/' ∈ f.data)
      ∧ f.data.count '.' = 1
      ∧ ¬ ['.', '.'] <:+: f.data := by
  obtain ⟨date, -, rfl⟩ := generate_filename_eq name addr nowSecs f hgen
  have hcount :
      (name ++ "-" ++ (⟨formatYmd date⟩ : String) ++ "-" ++ sanitizeAddr addr
        ++ ".json").data.count '.' = 1 := by
    simp only [String.data_append, List.count_append]
    rw [List.count_eq_zero.mpr (valid_name_no_dot hname),
      List.count_eq_zero.mpr (formatYmd_no_dot date),
      List.count_eq_zero.mpr (sanitize_no_dot addr)]
    decide
  refine ⟨?_, hcount, ?_⟩
  · intro hs
    simp only [String.data_append, List.mem_append]
    exact Or.inl (Or.inr (slash_mem_sanitize hs))
  · intro h
    have := h.count_le '.'
    rw [hcount] at this
    simp at this

/-- Witness for C9's amended theorem at a concrete traversal attempt. -/
theorem sanitized_filename_slash_no_dotdot_witness :
    is_valid_name "a" = true
      ∧ generate_filename "a" "../../secret" 0 = some "a-1970-01-01-__/__/secret.json"
      ∧ ('/' ∈ ("../../secret" : String).data →
          '/' ∈ ("a-1970-01-01-__/__/secret.json" : String).data)
      ∧ ¬ ['.', '.'] <:+: ("a-1970-01-01-__/__/secret.json" : String).data :=
  ⟨by decide, by decide,
   (sanitized_filename_slash_no_dotdot "a" "../../secret" 0 _ (by decide) (by decide)).1,
   (sanitized_filename_slash_no_dotdot "a" "../../secret" 0 _ (by decide) (by decide)).2.2⟩

/-- The code's character-list sanitization agrees with the spec's
character-by-character description. -/
theorem sanitizeAddr_eq_spec (addr : String) : sanitizeAddr addr = specSanitize addr := by
  unfold sanitizeAddr specSanitize
  congr 1
  apply List.map_congr_left
  intro c _
  by_cases h1 : c = '.' <;> by_cases h2 : c = ':' <;> simp [h1, h2]

/-- C4: for a valid name and any address, the generated filename is
`name-YYYY-MM-DD-sanitizedAddress.json`, where the date is the UTC civil
date of the seconds-resolution timestamp truncated to whole days and the
sanitized address has every `.` and `:` replaced by `_`.  (The timestamp
bound keeps chrono's conversion in range; beyond it the code panics
instead, see C7.) -/
theorem generate_filename_matches_spec (name addr : String) (nowSecs : Nat)
    (_hname : is_valid_name name = true)
    (hrange : (nowSecs : Int) ≤ chronoMaxTs) :
    generate_filename name addr nowSecs
      = some (name ++ "-" ++ specCurrentDate nowSecs ++ "-" ++ specSanitize addr ++ ".json") := by
  have hlit : chronoMaxTs < 2 ^ 63 := by decide
  have hn63 : nowSecs < 2 ^ 63 := by exact_mod_cast lt_of_le_of_lt hrange hlit
  have hs : nowSecs % 2 ^ 64 = nowSecs := Nat.mod_eq_of_lt (by omega)
  have hts : tsOf nowSecs = (nowSecs : Int) := by
    unfold tsOf
    rw [hs, if_pos hn63]
  have hmin : chronoMinTs < 0 := by decide
  have hfrom : fromTimestamp (tsOf nowSecs) = some (civilFromDays ((nowSecs / 86400 : Nat) : Int)) := by
    rw [hts]
    unfold fromTimestamp
    rw [if_neg (by
      push_neg
      exact ⟨le_trans hmin.le (Int.natCast_nonneg nowSecs), hrange⟩)]
    rw [Int.fdiv_eq_ediv _ (by decide)]
    norm_cast
  unfold generate_filename
  rw [hfrom, sanitizeAddr_eq_spec]
  rfl

/-- Witness for C4 at the request of spec scenario B. -/
theorem generate_filename_matches_spec_witness :
    is_valid_name "metrics" = true
      ∧ ((1704067200 : Nat) : Int) ≤ chronoMaxTs
      ∧ generate_filename "metrics" "203.0.113.5" 1704067200
          = some ("metrics" ++ "-" ++ specCurrentDate 1704067200 ++ "-"
              ++ specSanitize "203.0.113.5" ++ ".json")
      ∧ specCurrentDate 1704067200 = "2024-01-01"
      ∧ specSanitize "203.0.113.5" = "203_0_113_5" :=
  ⟨by decide, by decide,
   generate_filename_matches_spec "metrics" "203.0.113.5" 1704067200 (by decide) (by decide),
   by decide, by decide⟩

/-- C6: two successful posts with the same name, date and client address
write to the same path; `File::create` truncates, so after replaying both
traces the file holds exactly the second payload. -/
theorem overwrite_last_write_wins (cwd name : String) (xff : Option (Option String))
    (peer : String) (p₁ p₂ : Json) (s₁ s₂ : Nat) (pe₁ pe₂ : Bool) (f : String)
    (fs : String → Option (List Char))
    (hname : is_valid_name name = true)
    (h₁ : generate_filename name (remoteAddrOf xff) s₁ = some f)
    (h₂ : generate_filename name (remoteAddrOf xff) s₂ = some f) :
    FsOp.writeAll (cwd ++ "/data/" ++ f) (prettyVal p₁ 0)
        ∈ (save_data (okEnv cwd pe₁) s₁ name xff peer p₁).ops
      ∧ FsOp.writeAll (cwd ++ "/data/" ++ f) (prettyVal p₂ 0)
        ∈ (save_data (okEnv cwd pe₂) s₂ name xff peer p₂).ops
      ∧ applyOps ((save_data (okEnv cwd pe₁) s₁ name xff peer p₁).ops
            ++ (save_data (okEnv cwd pe₂) s₂ name xff peer p₂).ops) fs
          (cwd ++ "/data/" ++ f)
        = some (prettyVal p₂ 0) := by
  obtain ⟨ho₁, -⟩ := save_data_success_shape (okEnv cwd pe₁) s₁ name xff peer p₁ cwd f
    rfl hname h₁ (Or.inr rfl) rfl rfl
  obtain ⟨ho₂, -⟩ := save_data_success_shape (okEnv cwd pe₂) s₂ name xff peer p₂ cwd f
    rfl hname h₂ (Or.inr rfl) rfl rfl
  rw [ho₁, ho₂]
  refine ⟨by simp, by simp, ?_⟩
  cases pe₁ <;> cases pe₂ <;> simp [applyOps, applyOp]

/-- Witness for C6: posting `1` then `2` under the same name, date and
address leaves the file holding `2`. -/
theorem overwrite_last_write_wins_witness :
    is_valid_name "n" = true
      ∧ generate_filename "n" (remoteAddrOf none) 0 = some "n-1970-01-01-none.json"
      ∧ applyOps ((save_data (okEnv "/app" true) 0 "n" none "p" (.num 1)).ops
            ++ (save_data (okEnv "/app" true) 0 "n" none "p" (.num 2)).ops)
          (fun _ => none) "/app/data/n-1970-01-01-none.json"
        = some (prettyVal (.num 2) 0) :=
  ⟨by decide, by decide,
   (overwrite_last_write_wins "/app" "n" none "p" (.num 1) (.num 2) 0 0 true true
      "n-1970-01-01-none.json" (fun _ => none) (by decide) (by decide) (by decide)).2.2⟩

/-- Witness for C7: a request on which `File::create` fails. -/
theorem fs_failure_aborts_witness :
    is_valid_name "n" = true
      ∧ (save_data ⟨some "/app", true, true, false, true⟩ 0 "n" none "p" .null).response
          = none :=
  ⟨by decide,
   fs_failure_aborts ⟨some "/app", true, true, false, true⟩ 0 "n" none "p" .null
     (by decide) (Or.inr (Or.inr (Or.inr (Or.inl rfl))))⟩

/-! ## Round-trip of the JSON printer and parser (towards C5) -/

/-- An ASCII digit character satisfies `isDigitChar`. -/
theorem digit_isDigit {k : Nat} (hk : k ≤ 9) : isDigitChar (Char.ofNat (48 + k)) = true := by
  interval_cases k <;> decide

/-- An ASCII digit character is not whitespace. -/
theorem digit_notWs {k : Nat} (hk : k ≤ 9) : isWsChar (Char.ofNat (48 + k)) = false := by
  interval_cases k <;> decide

/-- The numeric value of an ASCII digit character. -/
theorem digit_val {k : Nat} (hk : k ≤ 9) : digitVal (Char.ofNat (48 + k)) = k := by
  interval_cases k <;> decide

/-- An ASCII digit character is none of the listed delimiter characters. -/
theorem digit_ne {k : Nat} (hk : k ≤ 9) (x : Char)
    (hx : x ∈ (['.', '/', ']', '}', ',', 'n', 't', 'f', '"', '[', '{', '-', ':'] : List Char)) :
    Char.ofNat (48 + k) ≠ x := by
  interval_cases k <;> fin_cases hx <;> decide

/-- `skipWs` leaves an input starting with a non-whitespace character alone. -/
theorem skipWs_not_ws {c : Char} (h : isWsChar c = false) (l : List Char) :
    skipWs (c :: l) = c :: l := by
  simp [skipWs, h]

/-- `skipWs` drops a leading whitespace character. -/
theorem skipWs_ws {c : Char} (h : isWsChar c = true) (l : List Char) :
    skipWs (c :: l) = skipWs l := by
  simp [skipWs, h]

/-- `skipWs` drops any run of leading spaces. -/
theorem skipWs_replicate (n : Nat) (l : List Char) :
    skipWs (List.replicate n ' ' ++ l) = skipWs l := by
  induction n with
  | zero => rfl
  | succ m ih => simpa [List.replicate_succ, skipWs] using ih

/-- `skipWs` drops leading indentation. -/
theorem skipWs_indent (lvl : Nat) (l : List Char) :
    skipWs (indent lvl ++ l) = skipWs l :=
  skipWs_replicate _ l

/-- `skipWs` drops a leading newline. -/
theorem skipWs_newline (l : List Char) : skipWs ('\n' :: l) = skipWs l :=
  skipWs_ws (by decide) l

/-- `parseVal` only looks at its input through `skipWs`. -/
theorem parseVal_congr (fuel : Nat) {s₁ s₂ : List Char} (h : skipWs s₁ = skipWs s₂) :
    parseVal (fuel + 1) s₁ = parseVal (fuel + 1) s₂ := by
  simp only [parseVal, h]

/-- `parseEntry` only looks at its input through `skipWs`. -/
theorem parseEntry_congr (fuel : Nat) {s₁ s₂ : List Char} (h : skipWs s₁ = skipWs s₂) :
    parseEntry (fuel + 1) s₁ = parseEntry (fuel + 1) s₂ := by
  simp only [parseEntry, h]

/-- A maximal digit run folds its digits onto the accumulator and stops at
the first non-digit. -/
theorem parseDigitsGo_append (ds : List Char) :
    ∀ (rest : List Char) (acc : Nat), (∀ c ∈ ds, isDigitChar c = true) →
      noDigitHead rest = true →
      parseDigitsGo acc (ds ++ rest)
        = (ds.foldl (fun a c => a * 10 + digitVal c) acc, rest) := by
  induction ds with
  | nil =>
      intro rest acc _ hrest
      cases rest with
      | nil => rfl
      | cons c cs =>
          simp only [noDigitHead, Bool.not_eq_true'] at hrest
          simp [parseDigitsGo, hrest]
  | cons d ds ih =>
      intro rest acc hds hrest
      have hd : isDigitChar d = true := hds d (List.mem_cons_self d ds)
      simp only [List.cons_append, parseDigitsGo, hd, if_true, List.foldl_cons]
      exact ih rest _ (fun c hc => hds c (List.mem_cons_of_mem d hc)) hrest

/-- Folding the decimal digits of `n` onto an accumulator recovers
`acc * 10 ^ digits + n`. -/
theorem natDigitsAux_foldl :
    ∀ (fuel n acc : Nat), n < fuel →
      (natDigitsAux fuel n).foldl (fun a c => a * 10 + digitVal c) acc
        = acc * 10 ^ (natDigitsAux fuel n).length + n := by
  intro fuel
  induction fuel with
  | zero => omega
  | succ f ih =>
      intro n acc hn
      unfold natDigitsAux
      by_cases h10 : n < 10
      · rw [if_pos h10]
        simp [digit_val (by omega : n ≤ 9)]
      · rw [if_neg h10]
        have hrec : n / 10 < f := by omega
        rw [List.foldl_append, ih (n / 10) acc hrec]
        simp only [List.length_append, List.foldl_cons, List.foldl_nil, List.length_cons,
          List.length_nil]
        rw [digit_val (by omega : n % 10 ≤ 9)]
        rw [pow_succ]
        ring_nf
        omega

/-- Folding the decimal digits of `n` from accumulator `0` recovers `n`. -/
theorem natDigits_foldl (n : Nat) :
    (natDigits n).foldl (fun a c => a * 10 + digitVal c) 0 = n := by
  unfold natDigits
  rw [natDigitsAux_foldl (n + 1) n 0 (by omega)]
  omega

/-- Parsing the printed form of a natural number (plus a non-digit rest)
returns exactly that number. -/
theorem parseDigits_natDigits (m : Nat) (rest : List Char) (hrest : noDigitHead rest = true) :
    ∀ c ds, natDigits m = c :: ds →
      parseDigitsGo (digitVal c) (ds ++ rest) = (m, rest) := by
  intro c ds heq
  have hall : ∀ x ∈ natDigits m, isDigitChar x = true := by
    intro x hx
    obtain ⟨k, hk, rfl⟩ := mem_natDigits hx
    exact digit_isDigit hk
  have hds : ∀ x ∈ ds, isDigitChar x = true := by
    intro x hx
    exact hall x (heq ▸ List.mem_cons_of_mem c hx)
  rw [parseDigitsGo_append ds rest (digitVal c) hds hrest]
  have : (c :: ds).foldl (fun a c => a * 10 + digitVal c) 0 = m := by
    rw [← heq]; exact natDigits_foldl m
  simp only [List.foldl_cons] at this
  simpa using this

/-- Parsing the printed form of a natural number yields that number. -/
theorem parseVal_natDigits (fuel m : Nat) (rest : List Char)
    (hrest : noDigitHead rest = true) :
    parseVal (fuel + 1) (natDigits m ++ rest) = some (.num (m : Int), rest) := by
  cases heq : natDigits m with
  | nil => exact absurd heq (natDigits_ne_nil m)
  | cons c ds =>
      obtain ⟨k, hk, hc⟩ := mem_natDigits (n := m) (heq ▸ List.mem_cons_self c ds)
      subst hc
      rw [List.cons_append]
      simp only [parseVal]
      rw [skipWs_not_ws (digit_notWs hk)]
      dsimp only
      rw [if_neg (digit_ne hk 'n' (by decide)), if_neg (digit_ne hk 't' (by decide)),
        if_neg (digit_ne hk 'f' (by decide)), if_neg (digit_ne hk '"' (by decide)),
        if_neg (digit_ne hk '[' (by decide)), if_neg (digit_ne hk '{' (by decide)),
        if_neg (digit_ne hk '-' (by decide)), if_pos (digit_isDigit hk),
        parseDigits_natDigits m rest hrest _ _ heq]

/-- Parsing the printed form of an integer yields that integer. -/
theorem parseVal_intChars (fuel : Nat) (n : Int) (rest : List Char)
    (hrest : noDigitHead rest = true) :
    parseVal (fuel + 1) (intChars n ++ rest) = some (.num n, rest) := by
  by_cases hn : n < 0
  · rw [intChars, if_pos hn]
    cases heq : natDigits (-n).toNat with
    | nil => exact absurd heq (natDigits_ne_nil _)
    | cons c ds =>
        obtain ⟨k, hk, hc⟩ := mem_natDigits (n := (-n).toNat) (heq ▸ List.mem_cons_self c ds)
        subst hc
        rw [List.cons_append, List.cons_append]
        simp only [parseVal]
        rw [skipWs_not_ws (by decide)]
        dsimp only
        rw [if_neg (by decide : ¬ ('-' : Char) = 'n'), if_neg (by decide : ¬ ('-' : Char) = 't'),
          if_neg (by decide : ¬ ('-' : Char) = 'f'), if_neg (by decide : ¬ ('-' : Char) = '"'),
          if_neg (by decide : ¬ ('-' : Char) = '['), if_neg (by decide : ¬ ('-' : Char) = '{'),
          if_pos (rfl : ('-' : Char) = '-')]
        rw [if_pos (digit_isDigit hk), parseDigits_natDigits _ rest hrest _ _ heq]
        have : (((-n).toNat : Int)) = -n := Int.toNat_of_nonneg (by omega)
        rw [this]
        simp
  · rw [intChars, if_neg hn]
    rw [parseVal_natDigits fuel n.toNat rest hrest]
    rw [Int.toNat_of_nonneg (by omega)]

/-- `hexVal` inverts `hexDigitChar`. -/
theorem hexVal_hexDigitChar {x : Nat} (hx : x < 16) : hexVal (hexDigitChar x) = some x := by
  interval_cases x <;> decide

/-- Escaping distributes over cons. -/
theorem escapeString_cons (c : Char) (s : List Char) :
    escapeString (c :: s) = escapeChar c ++ escapeString s := by
  simp [escapeString]

/-- Parsing an escaped string body (through the closing quote) recovers the
original characters and leaves the rest untouched. -/
theorem parseStringBody_escape (s : List Char) (rest : List Char) :
    parseStringBody (escapeString s ++ '"' :: rest) = some (s, rest) := by
  induction s with
  | nil =>
      show parseStringBody ('"' :: rest) = some ([], rest)
      unfold parseStringBody
      simp
  | cons c s ih =>
      rw [escapeString_cons, List.append_assoc]
      by_cases h1 : c = '"'
      · subst h1
        rw [show escapeChar '"' = (['\\', '"'] : List Char) from by decide]
        simp only [List.cons_append, List.nil_append]
        unfold parseStringBody
        simp [unescape, ih]
      · by_cases h2 : c = '\\'
        · subst h2
          rw [show escapeChar '\\' = (['\\', '\\'] : List Char) from by decide]
          simp only [List.cons_append, List.nil_append]
          unfold parseStringBody
          simp [unescape, ih]
        · by_cases h3 : c = Char.ofNat 8
          · subst h3
            rw [show escapeChar (Char.ofNat 8) = (['\\', 'b'] : List Char) from by decide]
            simp only [List.cons_append, List.nil_append]
            unfold parseStringBody
            simp [unescape, ih]
          · by_cases h4 : c = Char.ofNat 9
            · subst h4
              rw [show escapeChar (Char.ofNat 9) = (['\\', 't'] : List Char) from by decide]
              simp only [List.cons_append, List.nil_append]
              unfold parseStringBody
              simp [unescape, ih]
            · by_cases h5 : c = Char.ofNat 10
              · subst h5
                rw [show escapeChar (Char.ofNat 10) = (['\\', 'n'] : List Char) from by decide]
                simp only [List.cons_append, List.nil_append]
                unfold parseStringBody
                simp [unescape, ih]
              · by_cases h6 : c = Char.ofNat 12
                · subst h6
                  rw [show escapeChar (Char.ofNat 12) = (['\\', 'f'] : List Char) from by decide]
                  simp only [List.cons_append, List.nil_append]
                  unfold parseStringBody
                  simp [unescape, ih]
                · by_cases h7 : c = Char.ofNat 13
                  · subst h7
                    rw [show escapeChar (Char.ofNat 13) = (['\\', 'r'] : List Char) from by decide]
                    simp only [List.cons_append, List.nil_append]
                    unfold parseStringBody
                    simp [unescape, ih]
                  · by_cases h8 : c.toNat < 32
                    · have hdiv : c.toNat / 16 < 16 := by omega
                      have hmod : c.toNat % 16 < 16 := by omega
                      have harith :
                          ((0 * 16 + 0) * 16 + c.toNat / 16) * 16 + c.toNat % 16
                            = c.toNat := by omega
                      have harith2 : c.toNat / 16 * 16 + c.toNat % 16 = c.toNat := by omega
                      simp [escapeChar, h1, h2, h3, h4, h5, h6, h7, h8]
                      unfold parseStringBody
                      simp [hexVal_hexDigitChar hdiv, hexVal_hexDigitChar hmod,
                        show hexVal '0' = some 0 from by decide, harith, harith2, ih]
                    · simp [escapeChar, h1, h2, h3, h4, h5, h6, h7, h8]
                      unfold parseStringBody
                      simp [h1, h2, ih]

/-- Every JSON value has positive size. -/
theorem jsize_pos (v : Json) : 1 ≤ jsize v := by
  cases v
  all_goals first
    | exact Nat.le_refl 1
    | (show 1 ≤ 1 + _; omega)

/-- Every list of JSON values has positive size. -/
theorem jsizeList_pos (xs : List Json) : 1 ≤ jsizeList xs := by
  cases xs with
  | nil => exact Nat.le_refl 1
  | cons x xs => show 1 ≤ 1 + jsize x + jsizeList xs; omega

/-- Every object entry list has positive size. -/
theorem jsizeObj_pos (kvs : List (List Char × Json)) : 1 ≤ jsizeObj kvs := by
  cases kvs with
  | nil => exact Nat.le_refl 1
  | cons kv kvs =>
      obtain ⟨k, v⟩ := kv
      show 1 ≤ 1 + jsize v + jsizeObj kvs
      omega

/-- The first character of any pretty-printed value is not whitespace and is
not one of the closing delimiters the parser tests for. -/
theorem pretty_head (v : Json) (lvl : Nat) :
    ∃ c t, prettyVal v lvl = c :: t
      ∧ isWsChar c = false ∧ c ≠ ']' ∧ c ≠ '}' ∧ c ≠ ',' := by
  cases v with
  | null => exact ⟨'n', _, rfl, by decide, by decide, by decide, by decide⟩
  | bool b =>
      cases b
      · exact ⟨'f', _, rfl, by decide, by decide, by decide, by decide⟩
      · exact ⟨'t', _, rfl, by decide, by decide, by decide, by decide⟩
  | num n =>
      by_cases hn : n < 0
      · refine ⟨'-', natDigits (-n).toNat, ?_, by decide, by decide, by decide, by decide⟩
        show intChars n = _
        rw [intChars, if_pos hn]
      · cases heq : natDigits n.toNat with
        | nil => exact absurd heq (natDigits_ne_nil _)
        | cons c ds =>
            obtain ⟨k, hk, hc⟩ := mem_natDigits (n := n.toNat) (heq ▸ List.mem_cons_self c ds)
            subst hc
            refine ⟨_, ds, ?_, digit_notWs hk, digit_ne hk ']' (by decide),
              digit_ne hk '}' (by decide), digit_ne hk ',' (by decide)⟩
            show intChars n = _
            rw [intChars, if_neg hn, heq]
  | str s => exact ⟨'"', _, rfl, by decide, by decide, by decide, by decide⟩
  | arr xs =>
      cases xs with
      | nil => exact ⟨'[', _, rfl, by decide, by decide, by decide, by decide⟩
      | cons x xs => exact ⟨'[', _, rfl, by decide, by decide, by decide, by decide⟩
  | obj kvs =>
      cases kvs with
      | nil => exact ⟨'{', _, rfl, by decide, by decide, by decide, by decide⟩
      | cons kv kvs =>
          obtain ⟨k, v⟩ := kv
          exact ⟨'{', _, rfl, by decide, by decide, by decide, by decide⟩

/-- The tail of a pretty-printed array (followed by the closing newline)
never starts with a digit. -/
theorem noDigitHead_arrTail (xs : List Json) (lvl : Nat) (l : List Char) :
    noDigitHead (prettyArrTail xs lvl ++ '\n' :: l) = true := by
  cases xs <;> rfl

/-- The tail of a pretty-printed object (followed by the closing newline)
never starts with a digit. -/
theorem noDigitHead_objTail (kvs : List (List Char × Json)) (lvl : Nat) (l : List Char) :
    noDigitHead (prettyObjTail kvs lvl ++ '\n' :: l) = true := by
  cases kvs with
  | nil => rfl
  | cons kv kvs => obtain ⟨k, v⟩ := kv; rfl

/-- Equation lemma: the pretty form of a string. -/
theorem prettyVal_str (s : List Char) (lvl : Nat) :
    prettyVal (.str s) lvl = '"' :: escapeString s ++ ['"'] := rfl

/-- Equation lemma: the pretty form of a non-empty array. -/
theorem prettyVal_arr_cons (x : Json) (xs : List Json) (lvl : Nat) :
    prettyVal (.arr (x :: xs)) lvl
      = '[' :: '\n' :: indent (lvl + 1) ++ prettyVal x (lvl + 1)
        ++ prettyArrTail xs (lvl + 1) ++ '\n' :: indent lvl ++ [']'] := rfl

/-- Equation lemma: the pretty form of a non-empty object. -/
theorem prettyVal_obj_cons (k : List Char) (v : Json) (kvs : List (List Char × Json))
    (lvl : Nat) :
    prettyVal (.obj ((k, v) :: kvs)) lvl
      = '{' :: '\n' :: indent (lvl + 1) ++ prettyEntry (k, v) (lvl + 1)
        ++ prettyObjTail kvs (lvl + 1) ++ '\n' :: indent lvl ++ ['}'] := rfl

/-- Equation lemma: one pretty-printed object entry. -/
theorem prettyEntry_eq (k : List Char) (v : Json) (lvl : Nat) :
    prettyEntry (k, v) lvl
      = '"' :: escapeString k ++ '"' :: ':' :: ' ' :: prettyVal v lvl := rfl

/-- Equation lemma: the pretty form of an array tail. -/
theorem prettyArrTail_cons (x : Json) (xs : List Json) (lvl : Nat) :
    prettyArrTail (x :: xs) lvl
      = ',' :: '\n' :: indent lvl ++ prettyVal x lvl ++ prettyArrTail xs lvl := rfl

/-- Equation lemma: the pretty form of an object tail. -/
theorem prettyObjTail_cons (kv : List Char × Json) (kvs : List (List Char × Json))
    (lvl : Nat) :
    prettyObjTail (kv :: kvs) lvl
      = ',' :: '\n' :: indent lvl ++ prettyEntry kv lvl ++ prettyObjTail kvs lvl := rfl

/-- A pretty-printed entry starts with a quote. -/
theorem prettyEntry_head (k : List Char) (v : Json) (lvl : Nat) :
    ∃ t, prettyEntry (k, v) lvl = '"' :: t :=
  ⟨_, rfl⟩

/-- `parseVal` ignores a leading newline plus indentation. -/
theorem parseVal_drop_nl (fuel lvlI : Nat) (l : List Char) :
    parseVal (fuel + 1) ('\n' :: (indent lvlI ++ l)) = parseVal (fuel + 1) l :=
  parseVal_congr fuel (by rw [skipWs_newline, skipWs_indent])

/-- `parseVal` ignores a leading space. -/
theorem parseVal_drop_space (fuel : Nat) (l : List Char) :
    parseVal (fuel + 1) (' ' :: l) = parseVal (fuel + 1) l :=
  parseVal_congr fuel (skipWs_ws (by decide) l)

/-- `parseEntry` ignores a leading newline plus indentation. -/
theorem parseEntry_drop_nl (fuel lvlI : Nat) (l : List Char) :
    parseEntry (fuel + 1) ('\n' :: (indent lvlI ++ l)) = parseEntry (fuel + 1) l :=
  parseEntry_congr fuel (by rw [skipWs_newline, skipWs_indent])

/-- The printer–parser round trip, for values, array tails, object entries
and object tails simultaneously, by strong induction on the parser fuel. -/
theorem parse_pretty_all (fuel : Nat) :
    (∀ (v : Json) (lvl : Nat) (rest : List Char), jsize v ≤ fuel → noDigitHead rest = true →
        parseVal fuel (prettyVal v lvl ++ rest) = some (v, rest))
      ∧ (∀ (xs : List Json) (lvl : Nat) (rest : List Char), jsizeList xs ≤ fuel →
          noDigitHead rest = true →
          parseArrTail fuel (prettyArrTail xs (lvl + 1) ++ '\n' :: (indent lvl ++ ']' :: rest))
            = some (xs, rest))
      ∧ (∀ (k : List Char) (v : Json) (lvl : Nat) (rest : List Char), jsize v + 1 ≤ fuel →
          noDigitHead rest = true →
          parseEntry fuel (prettyEntry (k, v) lvl ++ rest) = some ((k, v), rest))
      ∧ (∀ (kvs : List (List Char × Json)) (lvl : Nat) (rest : List Char), jsizeObj kvs ≤ fuel →
          noDigitHead rest = true →
          parseObjTail fuel (prettyObjTail kvs (lvl + 1) ++ '\n' :: (indent lvl ++ '}' :: rest))
            = some (kvs, rest)) := by
  induction fuel using Nat.strong_induction_on with
  | _ fuel IH =>
  cases fuel with
  | zero =>
      refine ⟨?_, ?_, ?_, ?_⟩
      · intro v _ _ hsz _; have := jsize_pos v; omega
      · intro xs _ _ hsz _; have := jsizeList_pos xs; omega
      · intro _ v _ _ hsz _; omega
      · intro kvs _ _ hsz _; have := jsizeObj_pos kvs; omega
  | succ f =>
  obtain ⟨Pf, Af, Ef, Of⟩ := IH f (Nat.lt_succ_self f)
  refine ⟨?_, ?_, ?_, ?_⟩
  · -- values
    intro v lvl rest hsz hrest
    cases v with
    | null =>
        show parseVal (f + 1) (['n', 'u', 'l', 'l'] ++ rest) = some (.null, rest)
        rfl
    | bool b => cases b <;> rfl
    | num n => exact parseVal_intChars f n rest hrest
    | str s =>
        rw [prettyVal_str]
        simp only [List.cons_append, List.append_assoc, List.singleton_append, List.nil_append]
        simp only [parseVal]
        rw [skipWs_not_ws (by decide)]
        dsimp only
        rw [if_neg (by decide : ¬ ('"' : Char) = 'n'), if_neg (by decide : ¬ ('"' : Char) = 't'),
          if_neg (by decide : ¬ ('"' : Char) = 'f'), if_pos rfl, parseStringBody_escape]
        rfl
    | arr xs =>
        cases xs with
        | nil =>
            show parseVal (f + 1) (['[', ']'] ++ rest) = some (.arr [], rest)
            rfl
        | cons x xs =>
            have hb : 1 + (1 + jsize x + jsizeList xs) ≤ f + 1 := hsz
            have hxp := jsize_pos x
            have hlp := jsizeList_pos xs
            rw [prettyVal_arr_cons]
            simp only [List.cons_append, List.append_assoc, List.singleton_append, List.nil_append]
            simp only [parseVal]
            rw [skipWs_not_ws (by decide)]
            dsimp only
            rw [if_neg (by decide : ¬ ('[' : Char) = 'n'),
              if_neg (by decide : ¬ ('[' : Char) = 't'),
              if_neg (by decide : ¬ ('[' : Char) = 'f'),
              if_neg (by decide : ¬ ('[' : Char) = '"'), if_pos rfl]
            rw [skipWs_newline, skipWs_indent]
            obtain ⟨c, t, hx, hws, hne1, hne2, hne3⟩ := pretty_head x (lvl + 1)
            rw [hx, List.cons_append, skipWs_not_ws hws]
            dsimp only
            rw [if_neg hne1, ← List.cons_append, ← hx,
              Pf x (lvl + 1) _ (by omega) (noDigitHead_arrTail xs (lvl + 1) _)]
            dsimp only
            rw [Af xs lvl rest (by omega) hrest]
    | obj kvs =>
        cases kvs with
        | nil =>
            show parseVal (f + 1) (['{', '}'] ++ rest) = some (.obj [], rest)
            rfl
        | cons kv kvs =>
            obtain ⟨k, v⟩ := kv
            have hb : 1 + (1 + jsize v + jsizeObj kvs) ≤ f + 1 := hsz
            have hvp := jsize_pos v
            have hop := jsizeObj_pos kvs
            rw [prettyVal_obj_cons]
            simp only [List.cons_append, List.append_assoc, List.singleton_append, List.nil_append]
            simp only [parseVal]
            rw [skipWs_not_ws (by decide)]
            dsimp only
            rw [if_neg (by decide : ¬ ('{' : Char) = 'n'),
              if_neg (by decide : ¬ ('{' : Char) = 't'),
              if_neg (by decide : ¬ ('{' : Char) = 'f'),
              if_neg (by decide : ¬ ('{' : Char) = '"'),
              if_neg (by decide : ¬ ('{' : Char) = '['), if_pos rfl]
            rw [skipWs_newline, skipWs_indent]
            obtain ⟨te, hte⟩ := prettyEntry_head k v (lvl + 1)
            rw [hte, List.cons_append, skipWs_not_ws (by decide)]
            dsimp only
            rw [if_neg (by decide : ¬ ('"' : Char) = '}'), ← List.cons_append, ← hte,
              Ef k v (lvl + 1) _ (by omega) (noDigitHead_objTail kvs (lvl + 1) _)]
            dsimp only
            rw [Of kvs lvl rest (by omega) hrest]
  · -- array tails
    intro xs lvl rest hsz hrest
    cases xs with
    | nil =>
        show parseArrTail (f + 1) (([] : List Char) ++ '\n' :: (indent lvl ++ ']' :: rest))
            = some ([], rest)
        simp only [List.nil_append, parseArrTail]
        rw [skipWs_newline, skipWs_indent, skipWs_not_ws (by decide)]
        dsimp only
        rw [if_neg (by decide : ¬ (']' : Char) = ','), if_pos rfl]
    | cons x xs =>
        have hb : 1 + jsize x + jsizeList xs ≤ f + 1 := hsz
        have hxp := jsize_pos x
        have hlp := jsizeList_pos xs
        rw [prettyArrTail_cons]
        simp only [List.cons_append, List.append_assoc, List.singleton_append, List.nil_append]
        simp only [parseArrTail]
        rw [skipWs_not_ws (by decide)]
        dsimp only
        rw [if_pos rfl]
        cases f with
        | zero => omega
        | succ fp =>
            rw [parseVal_drop_nl fp (lvl + 1),
              Pf x (lvl + 1) _ (by omega) (noDigitHead_arrTail xs (lvl + 1) _)]
            dsimp only
            rw [Af xs lvl rest (by omega) hrest]
  · -- object entries
    intro k v lvl rest hsz hrest
    rw [prettyEntry_eq]
    simp only [List.cons_append, List.append_assoc, List.singleton_append, List.nil_append]
    simp only [parseEntry]
    rw [skipWs_not_ws (by decide)]
    dsimp only
    rw [if_pos rfl, parseStringBody_escape]
    dsimp only
    rw [skipWs_not_ws (by decide)]
    dsimp only
    rw [if_pos rfl]
    have hvp := jsize_pos v
    cases f with
    | zero => omega
    | succ fp =>
        rw [parseVal_drop_space fp, Pf v lvl rest (by omega) hrest]
  · -- object tails
    intro kvs lvl rest hsz hrest
    cases kvs with
    | nil =>
        show parseObjTail (f + 1) (([] : List Char) ++ '\n' :: (indent lvl ++ '}' :: rest))
            = some ([], rest)
        simp only [List.nil_append, parseObjTail]
        rw [skipWs_newline, skipWs_indent, skipWs_not_ws (by decide)]
        dsimp only
        rw [if_neg (by decide : ¬ ('}' : Char) = ','), if_pos rfl]
    | cons kv kvs =>
        obtain ⟨k, v⟩ := kv
        have hb : 1 + jsize v + jsizeObj kvs ≤ f + 1 := hsz
        have hvp := jsize_pos v
        have hop := jsizeObj_pos kvs
        rw [prettyObjTail_cons]
        simp only [List.cons_append, List.append_assoc, List.singleton_append, List.nil_append]
        simp only [parseObjTail]
        rw [skipWs_not_ws (by decide)]
        dsimp only
        rw [if_pos rfl]
        cases f with
        | zero => omega
        | succ fp =>
            rw [parseEntry_drop_nl fp (lvl + 1),
              Ef k v (lvl + 1) _ (by omega) (noDigitHead_objTail kvs (lvl + 1) _)]
            dsimp only
            rw [Of kvs lvl rest (by omega) hrest]

/-- Any pretty-printed JSON value parses back, in full, to itself. -/
theorem prettyVal_parses (v : Json) : ParsesTo (prettyVal v 0) v := by
  refine ⟨jsize v, ?_⟩
  have h := (parse_pretty_all (jsize v)).1 v 0 [] (le_refl _) rfl
  simpa using h

/-- C5: on a successful save, the bytes written to the produced file are the
pretty serialization of the posted JSON body, and parsing them back yields a
value deep-equal to the posted body (round trip). -/
theorem save_data_roundtrip (env : FsEnv) (nowSecs : Nat) (name : String)
    (xff : Option (Option String)) (peer : String) (payload : Json) (cwd f : String)
    (hcd : env.currentDir = some cwd)
    (hname : is_valid_name name = true)
    (hgen : generate_filename name (remoteAddrOf xff) nowSecs = some f)
    (hdir : env.parentExists = true ∨ env.createDirOk = true)
    (hcf : env.createFileOk = true) (hw : env.writeOk = true) :
    FsOp.writeAll (cwd ++ "/data/" ++ f) (prettyVal payload 0)
        ∈ (save_data env nowSecs name xff peer payload).ops
      ∧ ParsesTo (prettyVal payload 0) payload := by
  obtain ⟨ho, -⟩ := save_data_success_shape env nowSecs name xff peer payload cwd f
    hcd hname hgen hdir hcf hw
  refine ⟨?_, prettyVal_parses payload⟩
  rw [ho]
  simp

/-- Witness for C5: posting `{"a": 1}` (the spec's round-trip example). -/
theorem save_data_roundtrip_witness :
    is_valid_name "widget" = true
      ∧ generate_filename "widget" (remoteAddrOf none) 0
          = some "widget-1970-01-01-none.json"
      ∧ (FsOp.writeAll "/app/data/widget-1970-01-01-none.json"
            (prettyVal (.obj [("a".data, .num 1)]) 0)
          ∈ (save_data (okEnv "/app" true) 0 "widget" none "p"
              (.obj [("a".data, .num 1)])).ops
        ∧ ParsesTo (prettyVal (.obj [("a".data, .num 1)]) 0) (.obj [("a".data, .num 1)])) :=
  ⟨by decide, by decide,
   save_data_roundtrip (okEnv "/app" true) 0 "widget" none "p" (.obj [("a".data, .num 1)])
     "/app" "widget-1970-01-01-none.json" rfl (by decide) (by decide) (Or.inl rfl) rfl rfl⟩

end DataBacks
